import Mathlib

/-!
Verification of the dispersion-strategy dashboard analytics
(source: src/Final/app_v3.py).

The position log is embedded as a list of records; dates are natural
numbers (the code only compares and orders dates), monetary quantities
are rationals.  Pandas series indexed by date become functions from a
date to a value together with an explicitly sorted, deduplicated index
list; `groupby ... shift(1)` on a sorted index becomes the predecessor
element in that sorted list.
-/

/-- One row of positions_log.csv after load_data (app_v3.py lines 8-17):
date, ticker, underlying, type, quantity, price_today, delta, vega.
The derived unsigned notional mv = price_today * quantity is kept as a
function below rather than a field. -/
structure Record where
  date : Nat
  ticker : String
  underlying : String
  type : String
  quantity : Rat
  price_today : Rat
  delta : Rat
  vega : Rat
deriving DecidableEq, Repr

/-- Unsigned market value, line 15: pos["mv"] = price_today * quantity. -/
def Record.mv (r : Record) : Rat := r.price_today * r.quantity

/-- Sign convention, lines 124, 332, 468:
np.where(type == "short", -1.0, 1.0) - everything that is not exactly
"short" gets +1. -/
def Record.sign (r : Record) : Rat := if r.type = "short" then -1 else 1

/-- qty_signed = quantity * sign (lines 125, 333). -/
def Record.qty_signed (r : Record) : Rat := r.quantity * r.sign

/-- delta_signed = delta * sign (line 334). -/
def Record.delta_signed (r : Record) : Rat := r.delta * r.sign

/-- vega_signed = vega * sign (line 335). -/
def Record.vega_signed (r : Record) : Rat := r.vega * r.sign

/-- mv_signed = price_today * qty_signed (line 336). -/
def Record.mv_signed (r : Record) : Rat := r.price_today * r.qty_signed

/-- delta_exposure = delta * qty_signed (line 126). -/
def Record.delta_exposure (r : Record) : Rat := r.delta * r.qty_signed

/-- vega_exposure = vega * qty_signed (line 127). -/
def Record.vega_exposure (r : Record) : Rat := r.vega * r.qty_signed

/-- The sorted unique index a pandas groupby produces from a list of
date keys: deduplicate, then sort ascending. -/
def sortedDates (l : List Nat) : List Nat :=
  List.insertionSort (· ≤ ·) l.dedup

/-- Helper for the predecessor in a series index: a carries the value
seen one step earlier. -/
def prevAux (a : Nat) (ds : List Nat) (d : Nat) : Option Nat :=
  match ds with
  | [] => none
  | b :: rest => if b = d then some a else prevAux b rest d

/-- Predecessor of d in the index list ds: the element standing right
before the first occurrence of d.  This is shift(1) evaluated at d for a
series with (sorted, unique) index ds, and equally pos_dates[i - 1] for
i = pos_dates.index(d) (lines 320-325). -/
def prevInList (ds : List Nat) (d : Nat) : Option Nat :=
  match ds with
  | [] => none
  | a :: rest => if a = d then none else prevAux a rest d

/-!
Daily PnL Engine (app_v3.py lines 56-119).

daily_positions has one row per (date, ticker) pair occurring in the
log; price_today is the first price recorded for the pair (groupby
first on the date-and-ticker sorted frame), long_qty and short_qty are
the summed quantities of the records of each type, with fillna(0.0)
for a missing leg (sum over the empty list is already 0).
-/

/-- Records of the log belonging to one (date, ticker) row. -/
def recOn (h : List Record) (d : Nat) (t : String) : List Record :=
  h.filter (fun r => decide (r.date = d ∧ r.ticker = t))

/-- price = pos_all.groupby(["date", "ticker"])["price_today"].first()
(line 61); 0 is never read because the row exists only when a record
does. -/
def priceAt (h : List Record) (d : Nat) (t : String) : Rat :=
  match (recOn h d t).head? with
  | some r => r.price_today
  | none => 0

/-- long_qty (lines 64-68): summed quantity of type = "long" records of
the row; an absent leg gives the empty sum 0 = fillna(0.0). -/
def long_qty (h : List Record) (d : Nat) (t : String) : Rat :=
  (((recOn h d t).filter (fun r => decide (r.type = "long"))).map
    (fun r => r.quantity)).sum

/-- short_qty (lines 70-74). -/
def short_qty (h : List Record) (d : Nat) (t : String) : Rat :=
  (((recOn h d t).filter (fun r => decide (r.type = "short"))).map
    (fun r => r.quantity)).sum

/-- Sorted unique dates on which ticker t has records: the index of the
per-ticker series that groupby("ticker") ... shift(1) walks (lines
82-87). -/
def datesOf (h : List Record) (t : String) : List Nat :=
  sortedDates ((h.filter (fun r => decide (r.ticker = t))).map
    (fun r => r.date))

/-- The previous recorded date of ticker t before d: the row shift(1)
reads from (lines 85-87); none on the first row of the ticker. -/
def prevDateOf (h : List Record) (t : String) (d : Nat) : Option Nat :=
  prevInList (datesOf h t) d

/-- long_pnl = prev_long_qty * (price_today - prev_price) (lines 90-95),
with the mask_first rows forced to 0 (lines 98-100): prev_price is NaN
exactly when the ticker has no previous recorded date. -/
def long_pnl (h : List Record) (d : Nat) (t : String) : Rat :=
  match prevDateOf h t d with
  | none => 0
  | some p => long_qty h p t * (priceAt h d t - priceAt h p t)

/-- short_pnl = -prev_short_qty * (price_today - prev_price) (line 96),
0 on the first row of the ticker (lines 98-100). -/
def short_pnl (h : List Record) (d : Nat) (t : String) : Rat :=
  match prevDateOf h t d with
  | none => 0
  | some p => -(short_qty h p t) * (priceAt h d t - priceAt h p t)

/-- total_pnl = long_pnl + short_pnl (line 103). -/
def total_pnl (h : List Record) (d : Nat) (t : String) : Rat :=
  long_pnl h d t + short_pnl h d t

/-- Sorted unique dates of the whole log: the index of every
portfolio-level daily series (lines 106-108), and pos_dates of the
change reporter (line 320). -/
def allDatesList (h : List Record) : List Nat :=
  sortedDates (h.map (fun r => r.date))

/-- Tickers having a row on date d (each once). -/
def tickersOn (h : List Record) (d : Nat) : List String :=
  ((h.filter (fun r => decide (r.date = d))).map (fun r => r.ticker)).dedup

/-- daily_long_pnl_all = daily_positions.groupby("date")["long_pnl"].sum()
(line 106). -/
def daily_long_pnl_all (h : List Record) (d : Nat) : Rat :=
  ((tickersOn h d).map (fun t => long_pnl h d t)).sum

/-- daily_short_pnl_all (line 107). -/
def daily_short_pnl_all (h : List Record) (d : Nat) : Rat :=
  ((tickersOn h d).map (fun t => short_pnl h d t)).sum

/-- daily_total_pnl_all (line 108). -/
def daily_total_pnl_all (h : List Record) (d : Nat) : Rat :=
  ((tickersOn h d).map (fun t => total_pnl h d t)).sum

/-- capital_base_all (lines 110-116): on the earliest date of the full
history, the summed long notional plus the summed short notional of
the rows of that day. -/
def capital_base_all (h : List Record) : Rat :=
  match (allDatesList h).head? with
  | none => 0
  | some d0 =>
      ((tickersOn h d0).map (fun t => long_qty h d0 t * priceAt h d0 t)).sum
      + ((tickersOn h d0).map (fun t => short_qty h d0 t * priceAt h d0 t)).sum

/-- equity_all = capital_base_all + daily_total_pnl_all.cumsum()
(line 119): the cumulative sum up to date d over the sorted full-history
index. -/
def equity_all (h : List Record) (d : Nat) : Rat :=
  capital_base_all h
    + (((allDatesList h).filter (fun e => decide (e ≤ d))).map
        (fun e => daily_total_pnl_all h e)).sum

/-- equity_window = equity_all.loc[mask_window] (lines 158-163): the
slice of the full-history curve whose dates lie in the closed interval,
as (date, value) pairs. -/
def equity_window (h : List Record) (a b : Nat) : List (Nat × Rat) :=
  ((allDatesList h).filter (fun d => decide (a ≤ d ∧ d ≤ b))).map
    (fun d => (d, equity_all h d))

/-!
Exposure and Hedge Detector (app_v3.py lines 121-154).
-/

/-- net_delta of a date (lines 129-132): summed delta_exposure of the
records dated d. -/
def net_delta (h : List Record) (d : Nat) : Rat :=
  ((h.filter (fun r => decide (r.date = d))).map
    (fun r => r.delta_exposure)).sum

/-- net_vega of a date (lines 129-132). -/
def net_vega (h : List Record) (d : Nat) : Rat :=
  ((h.filter (fun r => decide (r.date = d))).map
    (fun r => r.vega_exposure)).sum

/-- Sorted unique dates on which the delta-hedge instrument
SPY_HEDGE_STOCK has records: the index of spy_hedge (lines 135-140). -/
def hedgeDates (h : List Record) : List Nat :=
  sortedDates ((h.filter (fun r => decide (r.ticker = "SPY_HEDGE_STOCK"))).map
    (fun r => r.date))

/-- spy_hedge (lines 135-140): summed qty_signed of SPY_HEDGE_STOCK on
date d. -/
def hedgeQty (h : List Record) (d : Nat) : Rat :=
  ((h.filter (fun r =>
      decide (r.ticker = "SPY_HEDGE_STOCK" ∧ r.date = d))).map
    (fun r => r.qty_signed)).sum

/-- delta_hedge_flags (line 141) reindexed onto the all-dates index with
fill_value False (line 153).  The flag is spy_hedge.ne(spy_hedge.shift()):
on the first row of the hedge instrument shift(1) yields NaN, pandas ne
evaluates a number against NaN as True, and the following fillna(False)
acts on an already boolean series with nothing to fill - so the first
hedge row carries True.  Dates without a hedge row read False from the
reindex fill. -/
def delta_hedge_flag (h : List Record) (d : Nat) : Bool :=
  if d ∈ hedgeDates h then
    match prevInList (hedgeDates h) d with
    | none => true
    | some p => decide (hedgeQty h d ≠ hedgeQty h p)
  else false

/-- spy_opts membership (line 144): an option position on underlying
SPY, the delta-hedge instrument excluded. -/
def isSpyOpt (r : Record) : Bool :=
  decide (r.underlying = "SPY" ∧ r.ticker ≠ "SPY_HEDGE_STOCK")

/-- Sorted unique dates of spy_opts records: the index of total_spy_qty
(line 146). -/
def spyOptDates (h : List Record) : List Nat :=
  sortedDates ((h.filter isSpyOpt).map (fun r => r.date))

/-- total_spy_qty (line 146): summed qty_signed of SPY option records on
date d. -/
def spyOptQty (h : List Record) (d : Nat) : Rat :=
  ((h.filter (fun r => isSpyOpt r && decide (r.date = d))).map
    (fun r => r.qty_signed)).sum

/-- The 1e-8 tolerance of line 148 as a rational. -/
def tol : Rat := 1 / 100000000

/-- vega_hedge_flags (lines 143-150) reindexed onto the all-dates index
with fill_value False (line 154).  diff() on the first spy-opts row is
NaN and NaN > 1e-8 is False; with no spy_opts records at all the series
is identically False. -/
def vega_hedge_flag (h : List Record) (d : Nat) : Bool :=
  if d ∈ spyOptDates h then
    match prevInList (spyOptDates h) d with
    | none => false
    | some p => decide (tol < spyOptQty h d - spyOptQty h p)
  else false

/-!
Window Performance Calculator (app_v3.py lines 156-204).
-/

/-- equity_rebased = equity_window / equity_window.iloc[0] (line 175). -/
def equity_rebased (h : List Record) (a b : Nat) : List Rat :=
  match ((equity_window h a b).map (fun q => q.2)).head? with
  | none => []
  | some e0 => ((equity_window h a b).map (fun q => q.2)).map (fun x => x / e0)

/-- pct_change().dropna() (line 178): consecutive ratios minus one; the
first entry of the series is dropped. -/
def pctChanges : List Rat → List Rat
  | [] => []
  | [_] => []
  | x :: y :: rest => (y / x - 1) :: pctChanges (y :: rest)

/-- daily_ret (line 178): percent change of the rebased equity over the
selected window. -/
def daily_ret (h : List Record) (a b : Nat) : List Rat :=
  pctChanges (equity_rebased h a b)

/-- Arithmetic mean of a list of rationals. -/
def listMean (xs : List Rat) : Rat := xs.sum / (xs.length : Rat)

/-- Sample variance with denominator n - 1, the square of the pandas
default std(ddof=1); only read behind a length guard. -/
def sampleVar (xs : List Rat) : Rat :=
  ((xs.map (fun x => (x - listMean xs) ^ 2)).sum) / ((xs.length : Rat) - 1)

/-- Result of the Sharpe computation: either the pair (mean, sample
variance) from which the displayed value mean / sqrt(var) * sqrt(252)
is formed, or the N/A sentinel (np.nan, rendered as the string N/A on
line 214). -/
inductive SharpeResult where
  | avail (m v : Rat)
  | na
deriving DecidableEq, Repr

/-- sharpe_3m (lines 181-184): the guarded computation.  The branch is
taken exactly when len(daily_ret) > 1 and std != 0; std differs from 0
exactly when the sample variance does. -/
def sharpe_3m (rets : List Rat) : SharpeResult :=
  if 1 < rets.length ∧ sampleVar rets ≠ 0 then
    .avail (listMean rets) (sampleVar rets)
  else .na

/-- Running maximum, equity_rebased.cummax() (line 190); m is the
maximum seen so far. -/
def cummaxAux (m : Rat) : List Rat → List Rat
  | [] => []
  | x :: xs => max m x :: cummaxAux (max m x) xs

/-- cummax of a list: each position holds the maximum of the items up to
and including it. -/
def cummax : List Rat → List Rat
  | [] => []
  | x :: xs => x :: cummaxAux x xs

/-- Minimum of a list as an Option, dd.min() of line 192. -/
def listMin : List Rat → Option Rat
  | [] => none
  | x :: xs =>
      some (match listMin xs with
            | none => x
            | some m => min x m)

/-- max_dd (lines 189-192): dd = equity_rebased / cummax - 1, then its
minimum; np.nan (N/A) when the window is empty. -/
def max_dd (h : List Record) (a b : Nat) : Option Rat :=
  listMin (List.zipWith (fun x m => x / m - 1) (equity_rebased h a b)
    (cummax (equity_rebased h a b)))

/-!
Daily Change Reporter (app_v3.py lines 316-386).
-/

/-- prev_date resolution (lines 320-325): pos_dates is the sorted list
of distinct dates of the whole log; if the inspected date is absent or
is pos_dates[0] the report is not computable (none), else the date one
slot earlier. -/
def change_prev_date (h : List Record) (d : Nat) : Option Nat :=
  prevInList (allDatesList h) d

/-- One row of the merged change table (lines 339-381) for ticker t,
inspection date d, predecessor date p. -/
structure ChangeRow where
  qty_tdy : Rat
  price_today_tdy : Rat
  delta_tdy : Rat
  vega_tdy : Rat
  value_today : Rat
  qty_prv : Rat
  price_today_prv : Rat
  delta_prv : Rat
  vega_prv : Rat
  value_prev : Rat
  price_change : Rat
  quantity_change : Rat
  delta_change : Rat
  vega_change : Rat
  value_change : Rat
deriving DecidableEq, Repr

/-- The merged row of the change table (lines 339-370): per-ticker sums
of the signed columns for today and the predecessor day, last observed
price on each side, the left join with fillna (prior quantity, delta,
vega and value fall back to 0, the prior price to the price of today),
and the derived changes, with value_change = qty_prv * price_change. -/
def mergedRow (h : List Record) (d p : Nat) (t : String) : ChangeRow :=
  let tdy := h.filter (fun r => decide (r.date = d ∧ r.ticker = t))
  let prv := h.filter (fun r => decide (r.date = p ∧ r.ticker = t))
  let qty_tdy := (tdy.map (fun r => r.qty_signed)).sum
  let price_today_tdy :=
    match tdy.getLast? with
    | some r => r.price_today
    | none => 0
  let delta_tdy := (tdy.map (fun r => r.delta_signed)).sum
  let vega_tdy := (tdy.map (fun r => r.vega_signed)).sum
  let value_today := (tdy.map (fun r => r.mv_signed)).sum
  let qty_prv := (prv.map (fun r => r.qty_signed)).sum
  let price_today_prv :=
    match prv.getLast? with
    | some r => r.price_today
    | none => price_today_tdy
  let delta_prv := (prv.map (fun r => r.delta_signed)).sum
  let vega_prv := (prv.map (fun r => r.vega_signed)).sum
  let value_prev := (prv.map (fun r => r.mv_signed)).sum
  { qty_tdy := qty_tdy
    price_today_tdy := price_today_tdy
    delta_tdy := delta_tdy
    vega_tdy := vega_tdy
    value_today := value_today
    qty_prv := qty_prv
    price_today_prv := price_today_prv
    delta_prv := delta_prv
    vega_prv := vega_prv
    value_prev := value_prev
    price_change := price_today_tdy - price_today_prv
    quantity_change := qty_tdy - qty_prv
    delta_change := delta_tdy - delta_prv
    vega_change := vega_tdy - vega_prv
    value_change := qty_prv * (price_today_tdy - price_today_prv) }

/-- Net direction label of line 373-381 from the signed net quantity. -/
def classify_net_type (q : Rat) : String :=
  if 0 < q then "net_long" else if q < 0 then "net_short" else "flat"

/-!
Concrete histories used to instantiate the theorems below.
-/

/-- Single-ticker two-day history: AAA long 10 at price 100 then 105
(the worked scenario of the spec). -/
def exH : List Record :=
  [⟨1, "AAA", "SPX", "long", 10, 100, 1, 0⟩,
   ⟨2, "AAA", "SPX", "long", 10, 105, 1, 0⟩]

/-- Three-day history with one flat day, giving two distinct daily
returns. -/
def exC5 : List Record :=
  [⟨1, "AAA", "SPX", "long", 10, 100, 1, 0⟩,
   ⟨2, "AAA", "SPX", "long", 10, 105, 1, 0⟩,
   ⟨3, "AAA", "SPX", "long", 10, 105, 1, 0⟩]

/-- SPY option position whose signed quantity rises from 5 to 10. -/
def exC6 : List Record :=
  [⟨1, "SPY_OPT_C", "SPY", "long", 5, 10, 1, 2⟩,
   ⟨2, "SPY_OPT_C", "SPY", "long", 10, 10, 1, 2⟩]

/-- Ticker BBB enters only on day 2; AAA is present on both days. -/
def exC8 : List Record :=
  [⟨1, "AAA", "SPX", "long", 10, 100, 1, 0⟩,
   ⟨2, "AAA", "SPX", "long", 10, 105, 1, 0⟩,
   ⟨2, "BBB", "SPX", "long", 3, 50, 1, 0⟩]

/-- A record with a malformed type field. -/
def exC10 : Record := ⟨1, "AAA", "SPX", "LONG", 7, 3, 2, 5⟩

/-- The delta-hedge instrument appears for the first (and only) time on
day 1. -/
def exC1 : List Record :=
  [⟨1, "SPY_HEDGE_STOCK", "SPY", "long", 10, 100, 1, 0⟩]

/-!
Facts about the sorted unique index and the shift(1) predecessor.
-/

theorem sortedDates_sorted_le (l : List Nat) :
    List.Sorted (· ≤ ·) (sortedDates l) :=
  List.sorted_insertionSort _ _

theorem sortedDates_nodup (l : List Nat) : (sortedDates l).Nodup :=
  (List.perm_insertionSort _ _).nodup_iff.mpr (List.nodup_dedup l)

theorem sortedDates_sorted_lt (l : List Nat) :
    List.Sorted (· < ·) (sortedDates l) :=
  (sortedDates_sorted_le l).lt_of_le (sortedDates_nodup l)

theorem mem_sortedDates {l : List Nat} {d : Nat} :
    d ∈ sortedDates l ↔ d ∈ l := by
  unfold sortedDates
  rw [List.mem_insertionSort, List.mem_dedup]
theorem prevAux_sound {a d p : Nat} : ∀ {ds : List Nat},
    List.Sorted (· < ·) (a :: ds) → prevAux a ds d = some p →
    d ∈ ds ∧ p ∈ a :: ds ∧ p < d ∧ ∀ e ∈ a :: ds, e < d → e ≤ p := by
  intro ds
  induction ds generalizing a with
  | nil => intro _ hp; simp [prevAux] at hp
  | cons b rest ih =>
    intro hs hp
    rw [prevAux] at hp
    by_cases hbd : b = d
    · subst hbd
      rw [if_pos rfl] at hp
      injection hp with hap
      subst hap
      have hab : a < b := (List.sorted_cons.mp hs).1 b (by simp)
      refine ⟨by simp, by simp, hab, ?_⟩
      intro e he hed
      rcases List.mem_cons.mp he with h1 | h2
      · exact le_of_eq h1
      · rcases List.mem_cons.mp h2 with h3 | h4
        · exact absurd (h3 ▸ hed) (lt_irrefl b)
        · have : b < e := (List.sorted_cons.mp (List.sorted_cons.mp hs).2).1 e h4
          exact absurd (lt_trans this hed) (lt_irrefl b)
    · simp only [if_neg hbd] at hp
      have hs2 : List.Sorted (· < ·) (b :: rest) := (List.sorted_cons.mp hs).2
      obtain ⟨hd, hpmem, hpd, hmax⟩ := ih hs2 hp
      have hab : a < b := (List.sorted_cons.mp hs).1 b (by simp)
      have hbp : b ≤ p := by
        rcases List.mem_cons.mp hpmem with h1 | h2
        · exact le_of_eq h1.symm
        · exact le_of_lt ((List.sorted_cons.mp hs2).1 p h2)
      refine ⟨List.mem_cons_of_mem b hd, List.mem_cons_of_mem a hpmem, hpd, ?_⟩
      intro e he hed
      rcases List.mem_cons.mp he with h1 | h2
      · exact le_trans (le_of_lt (h1 ▸ hab)) hbp
      · exact hmax e h2 hed

theorem prevInList_sound {ds : List Nat} {d p : Nat}
    (hs : List.Sorted (· < ·) ds) (hp : prevInList ds d = some p) :
    d ∈ ds ∧ p ∈ ds ∧ p < d ∧ ∀ e ∈ ds, e < d → e ≤ p := by
  cases ds with
  | nil => simp [prevInList] at hp
  | cons a rest =>
    rw [prevInList] at hp
    by_cases had : a = d
    · simp [had] at hp
    · simp only [if_neg had] at hp
      obtain ⟨hd, hpmem, hpd, hmax⟩ := prevAux_sound hs hp
      exact ⟨List.mem_cons_of_mem a hd, hpmem, hpd, hmax⟩

theorem prevAux_exists {d : Nat} : ∀ {ds : List Nat} (a : Nat), d ∈ ds →
    ∃ p, prevAux a ds d = some p := by
  intro ds
  induction ds with
  | nil => intro a h; simp at h
  | cons b rest ih =>
    intro a hd
    rw [prevAux]
    by_cases hbd : b = d
    · exact ⟨a, by simp [hbd]⟩
    · have : d ∈ rest := by
        rcases List.mem_cons.mp hd with h1 | h2
        · exact absurd h1.symm hbd
        · exact h2
      simpa [if_neg hbd] using ih b this

theorem prevInList_exists {ds : List Nat} {d : Nat}
    (hs : List.Sorted (· < ·) ds) (hd : d ∈ ds)
    (hex : ∃ e ∈ ds, e < d) : ∃ p, prevInList ds d = some p := by
  cases ds with
  | nil => simp at hd
  | cons a rest =>
    rw [prevInList]
    by_cases had : a = d
    · exfalso
      obtain ⟨e, he, hed⟩ := hex
      rcases List.mem_cons.mp he with h1 | h2
      · exact absurd (h1 ▸ hed) (had ▸ lt_irrefl d)
      · have : a < e := (List.sorted_cons.mp hs).1 e h2
        exact absurd (lt_trans this hed) (had ▸ lt_irrefl d)
    · have : d ∈ rest := by
        rcases List.mem_cons.mp hd with h1 | h2
        · exact absurd h1.symm had
        · exact h2
      simpa [if_neg had] using prevAux_exists a this

theorem prevInList_none_of_min {ds : List Nat} {d : Nat}
    (hs : List.Sorted (· < ·) ds) (hmin : ∀ e ∈ ds, ¬ e < d) :
    prevInList ds d = none := by
  cases hp : prevInList ds d with
  | none => rfl
  | some p =>
    obtain ⟨_, hpmem, hpd, _⟩ := prevInList_sound hs hp
    exact absurd hpd (hmin p hpmem)

/-- Claim C2: in the Daily PnL Engine, for a ticker on a date that has
an earlier recorded date, the prev values come from the immediately
preceding recorded date of that same ticker (per-ticker shift, calendar
gaps skipped), and the per-(date, ticker) PnL equals
long_pnl = prev_long_qty * (price_today - prev_price) and
short_pnl = -prev_short_qty * (price_today - prev_price). -/
theorem claim_C2 (h : List Record) (t : String) (d : Nat)
    (hd : d ∈ datesOf h t) (hex : ∃ e ∈ datesOf h t, e < d) :
    ∃ p, prevDateOf h t d = some p ∧ p ∈ datesOf h t ∧ p < d ∧
      (∀ e ∈ datesOf h t, e < d → e ≤ p) ∧
      long_pnl h d t = long_qty h p t * (priceAt h d t - priceAt h p t) ∧
      short_pnl h d t = -(short_qty h p t) * (priceAt h d t - priceAt h p t) := by
  have hs : List.Sorted (· < ·) (datesOf h t) := sortedDates_sorted_lt _
  obtain ⟨p, hp⟩ := prevInList_exists hs hd hex
  obtain ⟨_, hpmem, hpd, hmax⟩ := prevInList_sound hs hp
  refine ⟨p, hp, hpmem, hpd, hmax, ?_, ?_⟩
  · simp [long_pnl, prevDateOf, hp]
  · simp [short_pnl, prevDateOf, hp]

/-- Witness for C2 at the two-day history: day 2 of AAA reads its prev
values from day 1 and the PnL formulas hold there. -/
theorem claim_C2_witness :
    ∃ p, prevDateOf exH "AAA" 2 = some p ∧ p ∈ datesOf exH "AAA" ∧ p < 2 ∧
      (∀ e ∈ datesOf exH "AAA", e < 2 → e ≤ p) ∧
      long_pnl exH 2 "AAA"
        = long_qty exH p "AAA" * (priceAt exH 2 "AAA" - priceAt exH p "AAA") ∧
      short_pnl exH 2 "AAA"
        = -(short_qty exH p "AAA") * (priceAt exH 2 "AAA" - priceAt exH p "AAA") :=
  claim_C2 exH "AAA" 2 (by decide) (by decide)

/-- Claim C4: on the first recorded date of a ticker (no earlier
recorded date exists for it), both PnL legs are exactly 0. -/
theorem claim_C4 (h : List Record) (t : String) (d : Nat)
    (_hd : d ∈ datesOf h t) (hmin : ∀ e ∈ datesOf h t, ¬ e < d) :
    long_pnl h d t = 0 ∧ short_pnl h d t = 0 := by
  have hnone : prevInList (datesOf h t) d = none :=
    prevInList_none_of_min (sortedDates_sorted_lt _) hmin
  exact ⟨by simp [long_pnl, prevDateOf, hnone], by simp [short_pnl, prevDateOf, hnone]⟩

/-- Witness for C4: day 1 is the first recorded date of AAA and both
legs are 0 there. -/
theorem claim_C4_witness :
    long_pnl exH 1 "AAA" = 0 ∧ short_pnl exH 1 "AAA" = 0 :=
  claim_C4 exH "AAA" 1 (by decide) (by decide)

/-- Claim C7: the Daily Change Reporter resolves the predecessor of the
inspection date as the immediately preceding distinct calendar date
present anywhere in the log; on the earliest date of the log (or a date
absent from it) the resolution signals none, so only the change report
is suppressed. -/
theorem claim_C7 (h : List Record) (d : Nat) :
    (∀ p, change_prev_date h d = some p →
        p ∈ allDatesList h ∧ p < d ∧ ∀ e ∈ allDatesList h, e < d → e ≤ p)
    ∧ (d ∈ allDatesList h → (∀ e ∈ allDatesList h, ¬ e < d) →
        change_prev_date h d = none)
    ∧ (d ∉ allDatesList h → change_prev_date h d = none)
    ∧ (d ∈ allDatesList h → (∃ e ∈ allDatesList h, e < d) →
        ∃ p, change_prev_date h d = some p) := by
  have hs : List.Sorted (· < ·) (allDatesList h) := sortedDates_sorted_lt _
  refine ⟨?_, ?_, ?_, ?_⟩
  · intro p hp
    obtain ⟨_, hpmem, hpd, hmax⟩ := prevInList_sound hs hp
    exact ⟨hpmem, hpd, hmax⟩
  · intro _ hmin
    exact prevInList_none_of_min hs hmin
  · intro hnot
    cases hp : change_prev_date h d with
    | none => rfl
    | some p =>
      obtain ⟨hdmem, _, _, _⟩ := prevInList_sound hs hp
      exact absurd hdmem hnot
  · intro hd hex
    exact prevInList_exists hs hd hex

/-- Witness for C7: in the two-day history the predecessor of day 2
exists. -/
theorem claim_C7_witness : ∃ p, change_prev_date exH 2 = some p :=
  (claim_C7 exH 2).2.2.2 (by decide) (by decide)

/-- Claim C3: the capital base is fixed from the earliest date of the
full history as the summed long notional plus the summed short notional
of that date; the full-history equity curve obeys
equity[t] = equity[t - 1] + total_pnl[t] for consecutive recorded dates,
and windowing is a pure slice: every entry of equity_window carries the
unchanged full-history equity value of its date, and the capital base
takes no window argument at all. -/
theorem claim_C3 (h : List Record) (d dp : Nat)
    (hd : d ∈ allDatesList h) (hlt : dp < d)
    (hgap : ∀ e ∈ allDatesList h, ¬ (dp < e ∧ e < d)) :
    equity_all h d = equity_all h dp + daily_total_pnl_all h d
    ∧ (∀ a b x v, (x, v) ∈ equity_window h a b →
        v = equity_all h x ∧ a ≤ x ∧ x ≤ b)
    ∧ (∀ d0, (allDatesList h).head? = some d0 →
        capital_base_all h
          = ((tickersOn h d0).map (fun t => long_qty h d0 t * priceAt h d0 t)).sum
            + ((tickersOn h d0).map (fun t => short_qty h d0 t * priceAt h d0 t)).sum
        ∧ ∀ e ∈ allDatesList h, d0 ≤ e) := by
  refine ⟨?_, ?_, ?_⟩
  · have hnd : (allDatesList h).Nodup := sortedDates_nodup _
    have hdnotin : d ∉ (allDatesList h).filter (fun e => decide (e ≤ dp)) := by
      intro hmem
      rw [List.mem_filter, decide_eq_true_eq] at hmem
      omega
    have hperm : List.Perm ((allDatesList h).filter (fun e => decide (e ≤ d)))
        (d :: (allDatesList h).filter (fun e => decide (e ≤ dp))) := by
      refine (List.perm_ext_iff_of_nodup (hnd.filter _)
        (List.nodup_cons.mpr ⟨hdnotin, hnd.filter _⟩)).mpr ?_
      intro x
      simp only [List.mem_filter, List.mem_cons, decide_eq_true_eq]
      constructor
      · rintro ⟨hxL, hxd⟩
        by_cases hxe : x = d
        · exact Or.inl hxe
        · have := hgap x hxL
          right
          exact ⟨hxL, by omega⟩
      · rintro (rfl | ⟨hxL, hxdp⟩)
        · exact ⟨hd, le_refl x⟩
        · exact ⟨hxL, by omega⟩
    have hsum := (hperm.map (fun e => daily_total_pnl_all h e)).sum_eq
    simp only [List.map_cons, List.sum_cons] at hsum
    simp only [equity_all]
    rw [hsum]
    ring
  · intro a b x v hx
    simp only [equity_window, List.mem_map, List.mem_filter,
      decide_eq_true_eq, Prod.mk.injEq] at hx
    obtain ⟨y, ⟨_, hya, hyb⟩, rfl, rfl⟩ := hx
    exact ⟨rfl, hya, hyb⟩
  · intro d0 h0
    constructor
    · simp [capital_base_all, h0]
    · have hsle : List.Sorted (· ≤ ·) (allDatesList h) := sortedDates_sorted_le _
      intro e he
      cases hL : allDatesList h with
      | nil => rw [hL] at he; simp at he
      | cons x xs =>
        rw [hL] at h0 he hsle
        simp only [List.head?_cons, Option.some.injEq] at h0
        subst h0
        rcases List.mem_cons.mp he with h1 | h2
        · exact le_of_eq h1.symm
        · exact (List.sorted_cons.mp hsle).1 e h2

/-- Witness for C3: in the two-day history, equity on day 2 equals
equity on day 1 plus the total PnL of day 2, the slice and capital-base
facts instantiated there. -/
theorem claim_C3_witness :
    equity_all exH 2 = equity_all exH 1 + daily_total_pnl_all exH 2
    ∧ (∀ a b x v, (x, v) ∈ equity_window exH a b →
        v = equity_all exH x ∧ a ≤ x ∧ x ≤ b)
    ∧ (∀ d0, (allDatesList exH).head? = some d0 →
        capital_base_all exH
          = ((tickersOn exH d0).map
              (fun t => long_qty exH d0 t * priceAt exH d0 t)).sum
            + ((tickersOn exH d0).map
                (fun t => short_qty exH d0 t * priceAt exH d0 t)).sum
        ∧ ∀ e ∈ allDatesList exH, d0 ≤ e) :=
  claim_C3 exH 2 1 (by decide) (by decide) (by decide)

theorem sampleVar_nonneg (xs : List Rat) (hlen : 1 < xs.length) :
    0 ≤ sampleVar xs := by
  unfold sampleVar
  apply div_nonneg
  · apply List.sum_nonneg
    intro x hx
    simp only [List.mem_map] at hx
    obtain ⟨y, _, rfl⟩ := hx
    positivity
  · have h1 : (2 : Rat) ≤ (xs.length : Rat) := by exact_mod_cast hlen
    linarith

/-- Claim C5: the annualized Sharpe ratio is produced (as
mean / std * sqrt 252, represented by its mean and sample variance)
exactly when there are at least two daily-return observations and their
standard deviation is nonzero; in every other case the result is the
N/A sentinel; whenever a value is produced the variance is strictly
positive, so the divisor is a nonzero real number and no infinity or
divide-by-zero arises. -/
theorem claim_C5 (h : List Record) (a b : Nat) :
    ((∃ m v, sharpe_3m (daily_ret h a b) = .avail m v) ↔
      (2 ≤ (daily_ret h a b).length ∧ sampleVar (daily_ret h a b) ≠ 0))
    ∧ (∀ m v, sharpe_3m (daily_ret h a b) = .avail m v →
        m = listMean (daily_ret h a b) ∧ v = sampleVar (daily_ret h a b)
        ∧ 0 < v)
    ∧ (¬ (2 ≤ (daily_ret h a b).length ∧ sampleVar (daily_ret h a b) ≠ 0) →
        sharpe_3m (daily_ret h a b) = .na) := by
  constructor
  · constructor
    · rintro ⟨m, v, hmv⟩
      unfold sharpe_3m at hmv
      by_cases hc : 1 < (daily_ret h a b).length ∧ sampleVar (daily_ret h a b) ≠ 0
      · exact ⟨hc.1, hc.2⟩
      · rw [if_neg hc] at hmv
        exact absurd hmv (by simp)
    · rintro ⟨hlen, hvar⟩
      refine ⟨listMean (daily_ret h a b), sampleVar (daily_ret h a b), ?_⟩
      unfold sharpe_3m
      rw [if_pos ⟨hlen, hvar⟩]
  constructor
  · intro m v hmv
    unfold sharpe_3m at hmv
    by_cases hc : 1 < (daily_ret h a b).length ∧ sampleVar (daily_ret h a b) ≠ 0
    · rw [if_pos hc] at hmv
      injection hmv with hm hv
      subst hm
      subst hv
      exact ⟨rfl, rfl, lt_of_le_of_ne (sampleVar_nonneg _ hc.1) (Ne.symm hc.2)⟩
    · rw [if_neg hc] at hmv
      exact absurd hmv (by simp)
  · intro hc
    unfold sharpe_3m
    exact if_neg hc

/-- Witness for C5: the three-day history gives two distinct returns,
so a Sharpe value is produced. -/
theorem claim_C5_witness :
    ∃ m v, sharpe_3m (daily_ret exC5 1 3) = .avail m v :=
  (claim_C5 exC5 1 3).1.mpr (by
    constructor
    · decide
    · simp +decide [daily_ret, pctChanges, equity_rebased, equity_window,
        equity_all, capital_base_all, daily_total_pnl_all, total_pnl,
        long_pnl, short_pnl, prevDateOf, prevInList, prevAux, datesOf,
        allDatesList, sortedDates, tickersOn, long_qty, short_qty,
        priceAt, recOn, exC5, sampleVar, listMean, List.dedup,
        List.pwFilter]
      norm_num)

/-- Claim C6: the vega-hedge flag of a date is true iff the total signed
quantity of SPY option positions (delta-hedge instrument excluded)
strictly increased by more than the 1e-8 tolerance against the prior
dated record of that series; the first dated record reads false, a date
without SPY option records reads false, and with no SPY option records
anywhere in the history every date reads false. -/
theorem claim_C6 (h : List Record) (d : Nat) :
    (h.filter isSpyOpt = [] → vega_hedge_flag h d = false)
    ∧ (d ∉ spyOptDates h → vega_hedge_flag h d = false)
    ∧ (d ∈ spyOptDates h → (∀ e ∈ spyOptDates h, ¬ e < d) →
        vega_hedge_flag h d = false)
    ∧ ∀ p, prevInList (spyOptDates h) d = some p →
        (p ∈ spyOptDates h ∧ p < d ∧ ∀ e ∈ spyOptDates h, e < d → e ≤ p)
        ∧ (vega_hedge_flag h d = true ↔ tol < spyOptQty h d - spyOptQty h p) := by
  have hs : List.Sorted (· < ·) (spyOptDates h) := sortedDates_sorted_lt _
  refine ⟨?_, ?_, ?_, ?_⟩
  · intro hempty
    have hdates : spyOptDates h = [] := by
      simp [spyOptDates, hempty, sortedDates]
    simp [vega_hedge_flag, hdates]
  · intro hnot
    simp [vega_hedge_flag, hnot]
  · intro hd hmin
    have hnone : prevInList (spyOptDates h) d = none :=
      prevInList_none_of_min hs hmin
    simp [vega_hedge_flag, hd, hnone]
  · intro p hp
    obtain ⟨hdmem, hpmem, hpd, hmax⟩ := prevInList_sound hs hp
    refine ⟨⟨hpmem, hpd, hmax⟩, ?_⟩
    simp [vega_hedge_flag, hdmem, hp]

/-- Witness for C6: the SPY option book grows from 5 to 10 between day 1
and day 2, so day 2 reads the predecessor day 1 and the flag criterion
is the tolerance comparison. -/
theorem claim_C6_witness :
    ((1 : Nat) ∈ spyOptDates exC6 ∧ (1 : Nat) < 2 ∧
      ∀ e ∈ spyOptDates exC6, e < 2 → e ≤ 1)
    ∧ (vega_hedge_flag exC6 2 = true ↔
        tol < spyOptQty exC6 2 - spyOptQty exC6 1) :=
  (claim_C6 exC6 2).2.2.2 1 (by decide)

/-- Claim C8: a ticker present on the inspection date but absent on the
predecessor date gets zero-filled prior quantity, delta, vega and value,
its prior price defaults to the price of today, and therefore both its
price_change and its value_change are exactly 0. -/
theorem claim_C8 (h : List Record) (d p : Nat) (t : String)
    (_htoday : h.filter (fun r => decide (r.date = d ∧ r.ticker = t)) ≠ [])
    (habsent : h.filter (fun r => decide (r.date = p ∧ r.ticker = t)) = []) :
    (mergedRow h d p t).qty_prv = 0
    ∧ (mergedRow h d p t).price_today_prv = (mergedRow h d p t).price_today_tdy
    ∧ (mergedRow h d p t).delta_prv = 0
    ∧ (mergedRow h d p t).vega_prv = 0
    ∧ (mergedRow h d p t).value_prev = 0
    ∧ (mergedRow h d p t).price_change = 0
    ∧ (mergedRow h d p t).value_change = 0 := by
  simp only [mergedRow]
  rw [habsent]
  simp

/-- Witness for C8: ticker BBB exists on day 2 only; its change-report
row against day 1 has zero prior fields and zero price and value
changes. -/
theorem claim_C8_witness :
    (mergedRow exC8 2 1 "BBB").qty_prv = 0
    ∧ (mergedRow exC8 2 1 "BBB").price_today_prv
        = (mergedRow exC8 2 1 "BBB").price_today_tdy
    ∧ (mergedRow exC8 2 1 "BBB").delta_prv = 0
    ∧ (mergedRow exC8 2 1 "BBB").vega_prv = 0
    ∧ (mergedRow exC8 2 1 "BBB").value_prev = 0
    ∧ (mergedRow exC8 2 1 "BBB").price_change = 0
    ∧ (mergedRow exC8 2 1 "BBB").value_change = 0 :=
  claim_C8 exC8 2 1 "BBB" (by decide) (by decide)

theorem zip_cummaxAux_nonpos {m : Rat} (hm : 0 < m) : ∀ (xs : List Rat),
    ∀ z ∈ List.zipWith (fun x mm => x / mm - 1) xs (cummaxAux m xs), z ≤ 0 := by
  intro xs
  induction xs generalizing m with
  | nil => intro z hz; simp [cummaxAux] at hz
  | cons x rest ih =>
    intro z hz
    simp only [cummaxAux, List.zipWith_cons_cons, List.mem_cons] at hz
    rcases hz with rfl | hz
    · have hpos : 0 < max m x := lt_of_lt_of_le hm (le_max_left m x)
      have : x / max m x ≤ 1 := (div_le_one hpos).mpr (le_max_right m x)
      linarith
    · exact ih (lt_of_lt_of_le hm (le_max_left m x)) z hz

theorem zip_cummaxAux_zeros : ∀ (xs : List Rat), (∀ x ∈ xs, x = 0) →
    ∀ z ∈ List.zipWith (fun x mm => x / mm - 1) xs (cummaxAux 0 xs), z ≤ 0 := by
  intro xs
  induction xs with
  | nil => intro _ z hz; simp [cummaxAux] at hz
  | cons x rest ih =>
    intro hall z hz
    have hx : x = 0 := hall x (by simp)
    subst hx
    simp only [cummaxAux, max_self, List.zipWith_cons_cons, List.mem_cons] at hz
    rcases hz with rfl | hz
    · norm_num
    · exact ih (fun y hy => hall y (by simp [hy])) z hz

theorem listMin_nonpos : ∀ (l : List Rat), (∀ x ∈ l, x ≤ 0) → l ≠ [] →
    ∃ m, listMin l = some m ∧ m ≤ 0 := by
  intro l
  induction l with
  | nil => intro _ h; exact absurd rfl h
  | cons x rest ih =>
    intro hall _
    cases hrest : listMin rest with
    | none =>
      exact ⟨x, by simp [listMin, hrest], hall x (by simp)⟩
    | some m =>
      refine ⟨min x m, by simp [listMin, hrest], ?_⟩
      exact le_trans (min_le_left x m) (hall x (by simp))

/-- Claim C9: over a non-empty window the max drawdown, the minimum of
rebased equity divided by its running maximum minus one, is at most 0;
over an empty window it is the N/A sentinel rather than a number. -/
theorem claim_C9 (h : List Record) (a b : Nat) :
    (equity_window h a b = [] → max_dd h a b = none)
    ∧ (equity_window h a b ≠ [] → ∃ m, max_dd h a b = some m ∧ m ≤ 0) := by
  constructor
  · intro hempty
    simp [max_dd, equity_rebased, hempty, listMin]
  · intro hne
    have hes : (equity_window h a b).map (fun q => q.2) ≠ [] := by
      simpa using hne
    obtain ⟨e0, rest, hcons⟩ := List.exists_cons_of_ne_nil hes
    have hreb : equity_rebased h a b
        = (e0 :: rest).map (fun x => x / e0) := by
      simp [equity_rebased, hcons]
    have hall : ∀ z ∈ List.zipWith (fun x mm => x / mm - 1)
        (equity_rebased h a b) (cummax (equity_rebased h a b)), z ≤ 0 := by
      rw [hreb]
      by_cases he0 : e0 = 0
      · subst he0
        intro z hz
        simp only [List.map_cons, div_zero, cummax, List.zipWith_cons_cons,
          List.mem_cons] at hz
        rcases hz with rfl | hz
        · norm_num
        · exact zip_cummaxAux_zeros _ (by
            intro y hy
            simp only [List.mem_map] at hy
            obtain ⟨w, _, rfl⟩ := hy
            rfl) z hz
      · intro z hz
        rw [List.map_cons, div_self he0] at hz
        simp only [cummax, List.zipWith_cons_cons, List.mem_cons] at hz
        rcases hz with rfl | hz
        · norm_num
        · exact zip_cummaxAux_nonpos one_pos _ z hz
    have hddne : List.zipWith (fun x mm => x / mm - 1)
        (equity_rebased h a b) (cummax (equity_rebased h a b)) ≠ [] := by
      rw [hreb]
      simp [cummax]
    obtain ⟨m, hm, hm0⟩ := listMin_nonpos _ hall hddne
    exact ⟨m, by simpa [max_dd] using hm, hm0⟩

/-- Witness for C9: the two-day window is non-empty and its max drawdown
is a number at most 0. -/
theorem claim_C9_witness :
    ∃ m, max_dd exH 1 2 = some m ∧ m ≤ 0 :=
  (claim_C9 exH 1 2).2 (by decide)

/-- Claim C10: any record whose type is not exactly "short" - "long" as
well as malformed values - is assigned sign +1, so it enters every
downstream signed sum (signed quantity, delta, vega, market value) as a
long position; every record receives a defined sign of +1 or -1, none is
rejected. -/
theorem claim_C10 (r : Record) (hr : r.type ≠ "short") :
    r.sign = 1
    ∧ r.qty_signed = r.quantity
    ∧ r.delta_signed = r.delta
    ∧ r.vega_signed = r.vega
    ∧ r.mv_signed = r.price_today * r.quantity
    ∧ r.delta_exposure = r.delta * r.quantity
    ∧ r.vega_exposure = r.vega * r.quantity
    ∧ (∀ s : Record, s.sign = 1 ∨ s.sign = -1)
    ∧ (∀ (h : List Record), net_delta (h ++ [r]) r.date
        = net_delta h r.date + r.delta * r.quantity) := by
  have h1 : r.sign = 1 := by simp [Record.sign, hr]
  refine ⟨h1, ?_, ?_, ?_, ?_, ?_, ?_, ?_, ?_⟩
  · simp [Record.qty_signed, h1]
  · simp [Record.delta_signed, h1]
  · simp [Record.vega_signed, h1]
  · simp [Record.mv_signed, Record.qty_signed, h1]
  · simp [Record.delta_exposure, Record.qty_signed, h1]
  · simp [Record.vega_exposure, Record.qty_signed, h1]
  · intro s
    by_cases hs : s.type = "short" <;> simp [Record.sign, hs]
  · intro h
    simp [net_delta, List.filter_append, Record.delta_exposure,
      Record.qty_signed, h1, mul_assoc]

/-- Witness for C10: a record with the malformed type "LONG" is treated
as a long position throughout. -/
theorem claim_C10_witness :
    exC10.sign = 1
    ∧ exC10.qty_signed = exC10.quantity
    ∧ exC10.delta_signed = exC10.delta
    ∧ exC10.vega_signed = exC10.vega
    ∧ exC10.mv_signed = exC10.price_today * exC10.quantity
    ∧ exC10.delta_exposure = exC10.delta * exC10.quantity
    ∧ exC10.vega_exposure = exC10.vega * exC10.quantity
    ∧ (∀ s : Record, s.sign = 1 ∨ s.sign = -1)
    ∧ (∀ (h : List Record), net_delta (h ++ [exC10]) exC10.date
        = net_delta h exC10.date + exC10.delta * exC10.quantity) :=
  claim_C10 exC10 (by decide)

/-- Claim C1 evaluated on the code: on the very first dated record of
the delta-hedge instrument SPY_HEDGE_STOCK the flag computed by line 141
is true, not false - spy_hedge.ne(spy_hedge.shift()) compares the first
value against the shifted-in NaN, pandas ne yields True there, and the
subsequent fillna(False) has no NaN left to replace.  This contradicts
the claim (and lines 98-100 of the same file show the intended idiom). -/
theorem claim_C1_eval : delta_hedge_flag exC1 1 = true := by decide
